import Mathlib

/-!
Shallow embedding of `src/aurras/dataset/dataset.py` (class `Dataset`).

Python strings are modelled as `List Char` (`PyStr`); Python dicts as
association lists with insert-or-update semantics preserving position
(`dictInsert`), matching CPython's insertion-ordered dicts; Python ints as
`Nat` (all integers involved are non-negative counters and indices);
fallible operations (`dict[k]` lookup, `random.choices` on an empty
population) return `Except GenErr`.  The `random.choices` call is modelled
by an explicit stream `rr` of pseudo-random draws: `rr i` is the i-th draw
for the category being sampled, reduced modulo the population size exactly
as a uniform index choice would be.
-/

abbrev PyStr := List Char

/-- Python `str.lower()` (character-wise lowering). -/
def pyLower (s : PyStr) : PyStr := s.map Char.toLower

/-- Python `str.strip()`: remove leading and trailing whitespace. -/
def pyStrip (s : PyStr) : PyStr :=
  ((s.dropWhile Char.isWhitespace).reverse.dropWhile Char.isWhitespace).reverse

/-- One step of whitespace splitting, consumed by `List.foldr`.  The state is
`(inWord, words)`: `inWord` records whether the character just to the right
belongs to a word, so a non-whitespace character either extends that word or
starts a new one. -/
def splitStep (c : Char) (st : Bool × List PyStr) : Bool × List PyStr :=
  if c.isWhitespace then (false, st.2)
  else
    match st with
    | (true, w :: ws) => (true, (c :: w) :: ws)
    | (_, ws) => (true, [c] :: ws)

/-- Python `str.split()` with no argument: maximal runs of non-whitespace
characters, in order; no empty words. -/
def pySplitWs (s : PyStr) : List PyStr := (s.foldr splitStep (false, [])).2

/-- Python `str.split(sep)` for a single-character separator: cut at every
occurrence of `sep`, keeping empty pieces (so `pySplitOn sep [] = [[]]`,
matching `"".split(" ") == [""]`). -/
def pySplitOn (sep : Char) : PyStr → List PyStr
  | [] => [[]]
  | c :: rest =>
    if c = sep then [] :: pySplitOn sep rest
    else
      match pySplitOn sep rest with
      | [] => [[c]]
      | w :: ws => (c :: w) :: ws

/-- Python `" ".join(words)`. -/
def pyJoinSpace : List PyStr → PyStr
  | [] => []
  | [w] => w
  | w :: ws => w ++ ' ' :: pyJoinSpace ws

/-- Python `str.startswith`. -/
def pyStartsWith (s p : PyStr) : Bool := p.isPrefixOf s

/-- Python `str.endswith`. -/
def pyEndsWith (s p : PyStr) : Bool := p.isSuffixOf s

/-- Python `list.index(x)` (on the lists we build, the element is always
present; on a list without the element this returns the length). -/
def pyIndex {α : Type} [DecidableEq α] (x : α) : List α → Nat
  | [] => 0
  | y :: ys => if y = x then 0 else pyIndex x ys + 1

/-- A `(word, entityLabel)` pair. -/
abbrev Pair := PyStr × Nat

abbrev Entities := List (PyStr × List Pair)
abbrev Intents := List (PyStr × List PyStr)
abbrev LabelMap := List (Nat × PyStr)

/-- Python `d[k]` read on an insertion-ordered dict. -/
def dictGet {α : Type} : List (PyStr × α) → PyStr → Option α
  | [], _ => none
  | p :: r, k => if p.1 = k then some p.2 else dictGet r k

/-- Python `d[k] = v`: update in place (keeping the key's position) when the
key exists, append otherwise. -/
def dictInsert {α : Type} (d : List (PyStr × α)) (k : PyStr) (v : α) : List (PyStr × α) :=
  if d.any (fun p => decide (p.1 = k)) then
    d.map (fun p => if p.1 = k then (k, v) else p)
  else d ++ [(k, v)]

/-- A final dataset record, as appended by `_generate_dataset`. -/
structure ExampleR where
  prompts : PyStr
  prompt_intent : Nat
  word_entities : List Nat
deriving DecidableEq

/-- The two exception classes the generation pipeline can raise:
`KeyError` from `self.entities[word[1:-1]]` in `_slot_filling`, and
`IndexError` from `random.choices` on an empty population. -/
inductive GenErr where
  | keyError : PyStr → GenErr
  | indexError : GenErr
deriving DecidableEq

/-- The per-file line processing of `_load_raw`: drop comment lines
(first character `#`), lower-case and strip the rest, in order. -/
def processedLines (lines : List PyStr) : List PyStr :=
  (lines.filter (fun l => !(pyStartsWith l ['#']))).map (fun l => pyStrip (pyLower l))

/-- `_load_raw` with `assign_ids=True`: `start_id` begins at 1 and is
incremented once per file; every line of a file is paired with the file's
`start_id`. -/
def loadRawEntitiesAux : List (PyStr × List PyStr) → Nat → Entities → Entities
  | [], _, data => data
  | (name, lines) :: rest, start_id, data =>
    loadRawEntitiesAux rest (start_id + 1)
      (dictInsert data name ((processedLines lines).map (fun v => (v, start_id))))

def loadRawEntities (files : List (PyStr × List PyStr)) : Entities :=
  loadRawEntitiesAux files 1 []

/-- `_load_raw` with `assign_ids=False` (the `start_id` counter is dead on
this branch and is omitted). -/
def loadRawIntentsAux : List (PyStr × List PyStr) → Intents → Intents
  | [], data => data
  | (name, lines) :: rest, data =>
    loadRawIntentsAux rest (dictInsert data name (processedLines lines))

def loadRawIntents (files : List (PyStr × List PyStr)) : Intents :=
  loadRawIntentsAux files []

/-- `_generate_mapping`: number the keys of `data` from `start_at` in
iteration order. -/
def generateMapping {α : Type} : List (PyStr × α) → Nat → LabelMap
  | [], _ => []
  | p :: rest, counter => (counter, p.1) :: generateMapping rest (counter + 1)

def lbrace : Char := Char.ofNat 123

def rbrace : Char := Char.ofNat 125

/-- The placeholder test of `_slot_filling`:
`word.startswith("{") and word.endswith("}")`. -/
def isPlaceholder (w : PyStr) : Bool :=
  pyStartsWith w [lbrace] && pyEndsWith w [rbrace]

/-- Python `word[1:-1]`. -/
def innerName (w : PyStr) : PyStr := (w.drop 1).dropLast

/-- Error-respecting map, modelling a Python loop that may raise at any
element: the first failing element's exception propagates. -/
def mapE {α β : Type} (f : α → Except GenErr β) : List α → Except GenErr (List β)
  | [] => Except.ok []
  | x :: xs =>
    match f x with
    | Except.error e => Except.error e
    | Except.ok y =>
      match mapE f xs with
      | Except.error e => Except.error e
      | Except.ok ys => Except.ok (y :: ys)

/-- One token of `_slot_filling`: a placeholder is replaced by the referenced
entity group's full `(value, entityId)` list (raising `KeyError` when the
name is absent); a literal token becomes the singleton `[(word, 0)]`. -/
def fillToken (E : Entities) (w : PyStr) : Except GenErr (List Pair) :=
  if isPlaceholder w then
    match dictGet E (innerName w) with
    | some g => Except.ok g
    | none => Except.error (GenErr.keyError (innerName w))
  else Except.ok [(w, 0)]

/-- One template of `_slot_filling`: `sample.split()` then per-token filling. -/
def fillSample (E : Entities) (t : PyStr) : Except GenErr (List (List Pair)) :=
  mapE (fillToken E) (pySplitWs t)

/-- `_slot_filling` over all intents. -/
def slotFilling (E : Entities) (I : Intents) :
    Except GenErr (List (PyStr × List (List (List Pair)))) :=
  mapE (fun p =>
    match mapE (fillSample E) p.2 with
    | Except.error e => Except.error e
    | Except.ok fs => Except.ok (p.1, fs)) I

/-- `itertools.product(*sample)`: the Cartesian product over the slots, in
slot order, rightmost slot fastest; the nullary product is `[[]]`. -/
def pyProduct {α : Type} : List (List α) → List (List α)
  | [] => [[]]
  | xs :: rest => (xs.map (fun x => (pyProduct rest).map (fun v => x :: v))).flatten

/-- `_permutation_generation`: per category, concatenate the products of all
of its filled templates. -/
def permutationGeneration (filled : List (PyStr × List (List (List Pair)))) :
    List (PyStr × List (List Pair)) :=
  filled.map (fun p => (p.1, (p.2.map pyProduct).flatten))

/-- The per-utterance body of `_distributed_entities_label`: drop pairs whose
word is the empty string, split every other word on whitespace, each sub-word
inheriting the pair's label. -/
def redistribute (sample : List Pair) : List Pair :=
  (sample.map (fun wp =>
    if wp.1 = [] then []
    else (pySplitWs wp.1).map (fun w => (w, wp.2)))).flatten

/-- `_distributed_entities_label` over all categories. -/
def distributedEntitiesLabel (perms : List (PyStr × List (List Pair))) :
    List (PyStr × List (List Pair)) :=
  perms.map (fun p => (p.1, p.2.map redistribute))

/-- The record constructed by `_generate_dataset` for one selected sample. -/
def assemble (L : LabelMap) (category : PyStr) (sample : List Pair) : ExampleR :=
  { prompts := pyJoinSpace (sample.map (fun q => q.1)),
    prompt_intent := pyIndex category (L.map (fun q => q.2)),
    word_entities := sample.map (fun q => q.2) }

/-- `random.choices(pop, k=k)`: `k` independent uniform draws with
replacement; on an empty population it returns `[]` for `k = 0` and raises
`IndexError` otherwise.  The draw stream `rr` supplies the random indices,
reduced modulo the population size. -/
def pyChoices {α : Type} (pop : List α) (k : Nat) (rr : Nat → Nat) :
    Except GenErr (List α) :=
  match pop with
  | [] => if k = 0 then Except.ok [] else Except.error GenErr.indexError
  | x :: xs =>
    Except.ok ((List.range k).map (fun i =>
      (x :: xs).get ⟨rr i % (x :: xs).length, Nat.mod_lt _ (Nat.succ_pos xs.length)⟩))

/-- The loop body of `_generate_dataset` for one category: the shortfall
branch takes every available utterance and records the printed diagnostic
`(category, available count)`; the quota branch draws `samples_per_intent`
utterances with `random.choices`. -/
def sampleCategory (L : LabelMap) (Q : Nat) (dup : Bool) (rr : Nat → Nat)
    (name : PyStr) (pop : List (List Pair)) :
    Except GenErr (List ExampleR × List (PyStr × Nat)) :=
  if dup = false ∧ pop.length < Q then
    Except.ok (pop.map (assemble L name), [(name, pop.length)])
  else
    match pyChoices pop Q rr with
    | Except.error e => Except.error e
    | Except.ok chosen => Except.ok (chosen.map (assemble L name), [])

/-- `_generate_dataset` over the categories, in order; `idx` numbers the
categories so each gets its own slice `rr idx` of the draw stream.  An
`IndexError` raised for any category aborts the run. -/
def generateDatasetAux (L : LabelMap) (Q : Nat) (dup : Bool) (rr : Nat → Nat → Nat) :
    Nat → List (PyStr × List (List Pair)) →
    Except GenErr (List ExampleR × List (PyStr × Nat))
  | _, [] => Except.ok ([], [])
  | idx, (name, pop) :: rest =>
    match sampleCategory L Q dup (rr idx) name pop with
    | Except.error e => Except.error e
    | Except.ok (es, dg) =>
      match generateDatasetAux L Q dup rr (idx + 1) rest with
      | Except.error e => Except.error e
      | Except.ok (ds, dgs) => Except.ok (es ++ ds, dg ++ dgs)

/-- `genrate_dataset` (sic): the full generation pipeline, from loaded
entities/intents to the final example list and shortfall diagnostics; any
`KeyError` during slot filling aborts the run before any example is
produced. -/
def genrateDataset (E : Entities) (I : Intents) (L : LabelMap) (Q : Nat)
    (dup : Bool) (rr : Nat → Nat → Nat) :
    Except GenErr (List ExampleR × List (PyStr × Nat)) :=
  match slotFilling E I with
  | Except.error e => Except.error e
  | Except.ok filled =>
    generateDatasetAux L Q dup rr 0
      (distributedEntitiesLabel (permutationGeneration filled))

/-- The instance state touched by `load` (the remaining fields stay at their
`__init__` defaults); `diags` models the printed diagnostics. -/
structure LoadState where
  entities : Entities
  entities_label : LabelMap
  intents : Intents
  intents_label : LabelMap
  diags : List PyStr
deriving DecidableEq

/-- `load`: when the dataset directory is missing, print a diagnostic and
return with the state untouched (all collections empty); otherwise load the
entity and intent files found and derive both label maps. -/
def load (isDir : Bool) (entityFiles intentFiles : List (PyStr × List PyStr)) :
    LoadState :=
  if isDir then
    { entities := loadRawEntities entityFiles,
      entities_label := generateMapping (loadRawEntities entityFiles) 1,
      intents := loadRawIntents intentFiles,
      intents_label := generateMapping (loadRawIntents intentFiles) 0,
      diags := [] }
  else
    { entities := [], entities_label := [], intents := [], intents_label := [],
      diags := [("Dataset directory does not exist".toList)] }

structure SavedFiles where
  intent_labels : LabelMap
  entity_labels : LabelMap
  dataset : List ExampleR
deriving DecidableEq

/-- Models `save` writing into `save_path` (defaulting to the dataset
directory): opening a file for writing inside a nonexistent directory fails
before creating anything, so when the directory is missing no label-map file
and no dataset file is produced. -/
def save (dirExists : Bool) (il el : LabelMap) (ds : List ExampleR) :
    Option SavedFiles :=
  if dirExists then some { intent_labels := il, entity_labels := el, dataset := ds }
  else none

/-! ### Basic lemmas about whitespace splitting and joining -/

/-- A word as produced by `str.split()`: non-empty and free of whitespace. -/
def goodWord (w : PyStr) : Prop := w ≠ [] ∧ ∀ c ∈ w, c.isWhitespace = false

lemma splitStep_words (c : Char) (st : Bool × List PyStr)
    (h : ∀ w ∈ st.2, goodWord w) : ∀ w ∈ (splitStep c st).2, goodWord w := by
  rcases st with ⟨b, ws⟩
  by_cases hc : c.isWhitespace
  · simpa [splitStep, hc] using h
  · have hc' : c.isWhitespace = false := by simpa using hc
    have hgc : goodWord [c] :=
      ⟨by simp, fun x hx => by rcases List.mem_singleton.mp hx with rfl; exact hc'⟩
    cases b with
    | false =>
      cases ws with
      | nil =>
        intro w hw
        rcases List.mem_singleton.mp (by simpa [splitStep, hc'] using hw) with rfl
        exact hgc
      | cons w0 ws0 =>
        intro w hw
        rw [show (splitStep c (false, w0 :: ws0)).2 = [c] :: w0 :: ws0 by
          simp [splitStep, hc']] at hw
        rcases List.mem_cons.mp hw with rfl | hw'
        · exact hgc
        · exact h w hw'
    | true =>
      cases ws with
      | nil =>
        intro w hw
        rcases List.mem_singleton.mp (by simpa [splitStep, hc'] using hw) with rfl
        exact hgc
      | cons w0 ws0 =>
        intro w hw
        rw [show (splitStep c (true, w0 :: ws0)).2 = (c :: w0) :: ws0 by
          simp [splitStep, hc']] at hw
        have h0 := h w0 (by simp)
        rcases List.mem_cons.mp hw with rfl | hw'
        · refine ⟨by simp, fun x hx => ?_⟩
          rcases List.mem_cons.mp hx with rfl | hx'
          · exact hc'
          · exact h0.2 x hx'
        · exact h w (by simp [hw'])

lemma foldr_splitStep_words (s : PyStr) :
    ∀ st : Bool × List PyStr, (∀ w ∈ st.2, goodWord w) →
    ∀ w ∈ (s.foldr splitStep st).2, goodWord w := by
  induction s with
  | nil => intro st h; exact h
  | cons c s ih => intro st h; exact splitStep_words c _ (ih st h)

/-- Every word returned by `pySplitWs` is non-empty and whitespace-free. -/
lemma pySplitWs_good (s : PyStr) : ∀ w ∈ pySplitWs s, goodWord w :=
  foldr_splitStep_words s (false, []) (by simp)

lemma foldr_splitStep_word (w : PyStr) (ws : List PyStr)
    (h1 : w ≠ []) (h2 : ∀ c ∈ w, c.isWhitespace = false) :
    w.foldr splitStep (false, ws) = (true, w :: ws) := by
  induction w with
  | nil => exact absurd rfl h1
  | cons c w ih =>
    cases w with
    | nil => simp [splitStep, h2 c (by simp)]
    | cons d w' =>
      have hrec := ih (by simp) (fun x hx => h2 x (List.mem_cons_of_mem _ hx))
      rw [List.foldr_cons, hrec]
      simp [splitStep, h2 c (by simp)]

/-- A single word free of whitespace splits to itself. -/
lemma pySplitWs_single (w : PyStr) (h1 : w ≠ [])
    (h2 : ∀ c ∈ w, c.isWhitespace = false) : pySplitWs w = [w] := by
  unfold pySplitWs
  rw [foldr_splitStep_word w [] h1 h2]

/-- Splitting a space-join of good words recovers exactly the words. -/
lemma pySplitWs_joinSpace : ∀ ws : List PyStr, (∀ w ∈ ws, goodWord w) →
    pySplitWs (pyJoinSpace ws) = ws := by
  intro ws
  induction ws with
  | nil => intro _; rfl
  | cons w ws ih =>
    intro h
    cases ws with
    | nil =>
      have hg := h w (by simp)
      exact pySplitWs_single w hg.1 hg.2
    | cons w' ws' =>
      have hg := h w (by simp)
      have ihh := ih (fun x hx => h x (List.mem_cons_of_mem _ hx))
      have hjoin : pyJoinSpace (w :: w' :: ws') = w ++ ' ' :: pyJoinSpace (w' :: ws') := rfl
      unfold pySplitWs at ihh ⊢
      rw [hjoin, List.foldr_append, List.foldr_cons]
      have hsp : splitStep ' ' ((pyJoinSpace (w' :: ws')).foldr splitStep (false, [])) =
          (false, w' :: ws') := by
        have : (' ' : Char).isWhitespace = true := by decide
        simp [splitStep, this, ihh]
      rw [hsp, foldr_splitStep_word w (w' :: ws') hg.1 hg.2]

/-! ### Lemmas about the Cartesian product -/

lemma sum_map_const {α : Type} (xs : List α) (c : Nat) :
    (xs.map (fun _ => c)).sum = xs.length * c := by
  induction xs with
  | nil => simp
  | cons x xs ih => simp [ih, Nat.succ_mul, Nat.add_comm]

/-- `itertools.product` over slots of sizes `n_1 .. n_k` yields exactly
`n_1 * ... * n_k` tuples. -/
lemma pyProduct_length {α : Type} : ∀ slots : List (List α),
    (pyProduct slots).length = (slots.map List.length).prod := by
  intro slots
  induction slots with
  | nil => rfl
  | cons xs rest ih =>
    simp only [pyProduct, List.length_flatten, List.map_map, List.map_cons,
      List.prod_cons]
    have : (List.length ∘ fun x => (pyProduct rest).map (fun v => x :: v)) =
        (fun _ : α => (pyProduct rest).length) := by
      funext x; simp
    rw [this, sum_map_const, ih]

lemma pyProduct_mem_cons {α : Type} {xs : List α} {rest : List (List α)}
    {u : List α} (h : u ∈ pyProduct (xs :: rest)) :
    ∃ x ∈ xs, ∃ v ∈ pyProduct rest, u = x :: v := by
  simp only [pyProduct, List.mem_flatten, List.mem_map] at h
  obtain ⟨l, ⟨x, hx, rfl⟩, hu⟩ := h
  obtain ⟨v, hv, rfl⟩ := List.mem_map.mp hu
  exact ⟨x, hx, v, hv, rfl⟩

/-- Every tuple of the product has one component per slot, the i-th chosen
from the i-th slot. -/
lemma pyProduct_mem {α : Type} : ∀ (slots : List (List α)) (u : List α),
    u ∈ pyProduct slots →
    u.length = slots.length ∧
    ∀ i (hu : i < u.length) (hi : i < slots.length),
      u.get ⟨i, hu⟩ ∈ slots.get ⟨i, hi⟩ := by
  intro slots
  induction slots with
  | nil =>
    intro u hu
    have : u = [] := by simpa [pyProduct] using hu
    subst this
    exact ⟨rfl, fun i hu hi => absurd hi (by simp)⟩
  | cons xs rest ih =>
    intro u hu
    obtain ⟨x, hx, v, hv, rfl⟩ := pyProduct_mem_cons hu
    obtain ⟨hlen, hget⟩ := ih v hv
    refine ⟨by simp [hlen], ?_⟩
    intro i hiu hislots
    cases i with
    | zero => simpa using hx
    | succ j =>
      simpa using hget j (by simpa using hiu) (by simpa using hislots)

/-- Every pair of a product tuple belongs to one of the slots. -/
lemma pyProduct_pair_mem {α : Type} : ∀ (slots : List (List α)) (u : List α),
    u ∈ pyProduct slots → ∀ p ∈ u, ∃ slot ∈ slots, p ∈ slot := by
  intro slots
  induction slots with
  | nil =>
    intro u hu p hp
    have : u = [] := by simpa [pyProduct] using hu
    subst this
    simp at hp
  | cons xs rest ih =>
    intro u hu p hp
    obtain ⟨x, hx, v, hv, rfl⟩ := pyProduct_mem_cons hu
    rcases List.mem_cons.mp hp with rfl | hp
    · exact ⟨xs, by simp, hx⟩
    · obtain ⟨slot, hslot, hps⟩ := ih v hv p hp
      exact ⟨slot, by simp [hslot], hps⟩

/-! ### Lemmas about error-propagating map -/

lemma mapE_ok_mem {α β : Type} {f : α → Except GenErr β} :
    ∀ {l : List α} {ys : List β}, mapE f l = Except.ok ys →
    ∀ y ∈ ys, ∃ x ∈ l, f x = Except.ok y := by
  intro l
  induction l with
  | nil =>
    intro ys h y hy
    simp only [mapE, Except.ok.injEq] at h
    subst h; simp at hy
  | cons x xs ih =>
    intro ys h y hy
    simp only [mapE] at h
    cases hfx : f x with
    | error e => rw [hfx] at h; exact absurd h (by simp)
    | ok z =>
      rw [hfx] at h
      cases hrec : mapE f xs with
      | error e => rw [hrec] at h; exact absurd h (by simp)
      | ok zs =>
        rw [hrec] at h
        obtain rfl : z :: zs = ys := by simpa using h
        rcases List.mem_cons.mp hy with rfl | hy'
        · exact ⟨x, by simp, hfx⟩
        · obtain ⟨x', hx', hfx'⟩ := ih hrec y hy'
          exact ⟨x', by simp [hx'], hfx'⟩

lemma mapE_error_of_mem {α β : Type} {f : α → Except GenErr β} :
    ∀ {l : List α} {x : α} {e : GenErr}, x ∈ l → f x = Except.error e →
    ∃ e', mapE f l = Except.error e' := by
  intro l
  induction l with
  | nil => intro x e hx; simp at hx
  | cons y ys ih =>
    intro x e hx hfx
    rcases List.mem_cons.mp hx with rfl | hx'
    · exact ⟨e, by simp [mapE, hfx]⟩
    · cases hfy : f y with
      | error e' => exact ⟨e', by simp [mapE, hfy]⟩
      | ok z =>
        obtain ⟨e', he'⟩ := ih hx' hfx
        exact ⟨e', by simp [mapE, hfy, he']⟩

lemma mapE_error_mem {α β : Type} {f : α → Except GenErr β} :
    ∀ {l : List α} {e : GenErr}, mapE f l = Except.error e →
    ∃ x ∈ l, f x = Except.error e := by
  intro l
  induction l with
  | nil => intro e h; simp [mapE] at h
  | cons x xs ih =>
    intro e h
    simp only [mapE] at h
    cases hfx : f x with
    | error e' =>
      rw [hfx] at h
      obtain rfl : e' = e := by simpa using h
      exact ⟨x, by simp, hfx⟩
    | ok z =>
      rw [hfx] at h
      cases hrec : mapE f xs with
      | error e' =>
        rw [hrec] at h
        obtain rfl : e' = e := by simpa using h
        obtain ⟨x', hx', hfx'⟩ := ih hrec
        exact ⟨x', by simp [hx'], hfx'⟩
      | ok zs => rw [hrec] at h; exact absurd h (by simp)

/-! ### Lemmas about sampling -/

lemma pyChoices_length {α : Type} {pop : List α} {k : Nat} {rr : Nat → Nat}
    {ys : List α} (h : pyChoices pop k rr = Except.ok ys) : ys.length = k := by
  cases pop with
  | nil =>
    by_cases hk : k = 0
    · simp [pyChoices, hk] at h; simp [← h, hk]
    · simp [pyChoices, hk] at h
  | cons x xs =>
    simp only [pyChoices, Except.ok.injEq] at h
    simp [← h]

lemma pyChoices_mem {α : Type} {pop : List α} {k : Nat} {rr : Nat → Nat}
    {ys : List α} (h : pyChoices pop k rr = Except.ok ys) :
    ∀ y ∈ ys, y ∈ pop := by
  cases pop with
  | nil =>
    by_cases hk : k = 0
    · simp [pyChoices, hk] at h; simp [← h]
    · simp [pyChoices, hk] at h
  | cons x xs =>
    simp only [pyChoices, Except.ok.injEq] at h
    intro y hy
    rw [← h] at hy
    obtain ⟨i, _, rfl⟩ := List.mem_map.mp hy
    exact List.get_mem _ _ _

/-! ### Provenance lemmas for the sampler and the pipeline stages -/

lemma sampleCategory_mem {L : LabelMap} {Q : Nat} {dup : Bool} {rr : Nat → Nat}
    {name : PyStr} {pop : List (List Pair)} {es : List ExampleR}
    {dg : List (PyStr × Nat)}
    (h : sampleCategory L Q dup rr name pop = Except.ok (es, dg)) :
    ∀ ex ∈ es, ∃ s ∈ pop, ex = assemble L name s := by
  unfold sampleCategory at h
  by_cases hb : dup = false ∧ pop.length < Q
  · rw [if_pos hb] at h
    obtain ⟨rfl, -⟩ : pop.map (assemble L name) = es ∧ [(name, pop.length)] = dg := by
      simpa using h
    intro ex hex
    obtain ⟨s, hs, rfl⟩ := List.mem_map.mp hex
    exact ⟨s, hs, rfl⟩
  · rw [if_neg hb] at h
    cases hch : pyChoices pop Q rr with
    | error e => rw [hch] at h; exact absurd h (by simp)
    | ok chosen =>
      rw [hch] at h
      obtain ⟨rfl, -⟩ : chosen.map (assemble L name) = es ∧ ([] : List (PyStr × Nat)) = dg := by
        simpa using h
      intro ex hex
      obtain ⟨s, hs, rfl⟩ := List.mem_map.mp hex
      exact ⟨s, pyChoices_mem hch s hs, rfl⟩

lemma generateDatasetAux_mem {L : LabelMap} {Q : Nat} {dup : Bool}
    {rr : Nat → Nat → Nat} :
    ∀ {cats : List (PyStr × List (List Pair))} {idx : Nat} {ds : List ExampleR}
      {dg : List (PyStr × Nat)},
    generateDatasetAux L Q dup rr idx cats = Except.ok (ds, dg) →
    ∀ ex ∈ ds, ∃ cat pop s, (cat, pop) ∈ cats ∧ s ∈ pop ∧ ex = assemble L cat s := by
  intro cats
  induction cats with
  | nil =>
    intro idx ds dg h ex hex
    obtain ⟨rfl, -⟩ : ([] : List ExampleR) = ds ∧ ([] : List (PyStr × Nat)) = dg := by
      simpa [generateDatasetAux] using h
    simp at hex
  | cons hd rest ih =>
    intro idx ds dg h ex hex
    obtain ⟨name, pop⟩ := hd
    simp only [generateDatasetAux] at h
    cases hsc : sampleCategory L Q dup (rr idx) name pop with
    | error e => rw [hsc] at h; exact absurd h (by simp)
    | ok esdg =>
      rw [hsc] at h
      obtain ⟨es, dg1⟩ := esdg
      cases hrec : generateDatasetAux L Q dup rr (idx + 1) rest with
      | error e => rw [hrec] at h; exact absurd h (by simp)
      | ok dsdg =>
        rw [hrec] at h
        obtain ⟨ds2, dg2⟩ := dsdg
        obtain ⟨rfl, -⟩ : es ++ ds2 = ds ∧ dg1 ++ dg2 = dg := by simpa using h
        rcases List.mem_append.mp hex with hex1 | hex2
        · obtain ⟨s, hs, rfl⟩ := sampleCategory_mem hsc ex hex1
          exact ⟨name, pop, s, by simp, hs, rfl⟩
        · obtain ⟨cat, pop', s, hmem, hs, rfl⟩ := ih hrec ex hex2
          exact ⟨cat, pop', s, by simp [hmem], hs, rfl⟩

lemma permutationGeneration_mem {filled : List (PyStr × List (List (List Pair)))}
    {cat : PyStr} {pop : List (List Pair)}
    (h : (cat, pop) ∈ permutationGeneration filled) :
    ∃ fp ∈ filled, cat = fp.1 ∧ pop = (fp.2.map pyProduct).flatten := by
  obtain ⟨fp, hfp, heq⟩ := List.mem_map.mp h
  exact ⟨fp, hfp, congrArg Prod.fst heq.symm, congrArg Prod.snd heq.symm⟩

lemma distributedEntitiesLabel_mem {perms : List (PyStr × List (List Pair))}
    {cat : PyStr} {pop : List (List Pair)}
    (h : (cat, pop) ∈ distributedEntitiesLabel perms) :
    ∃ pp ∈ perms, cat = pp.1 ∧ pop = pp.2.map redistribute := by
  obtain ⟨pp, hpp, heq⟩ := List.mem_map.mp h
  exact ⟨pp, hpp, congrArg Prod.fst heq.symm, congrArg Prod.snd heq.symm⟩

lemma slotFilling_mem {E : Entities} {I : Intents}
    {filled : List (PyStr × List (List (List Pair)))}
    (h : slotFilling E I = Except.ok filled) :
    ∀ fp ∈ filled, ∃ p ∈ I, fp.1 = p.1 ∧ mapE (fillSample E) p.2 = Except.ok fp.2 := by
  intro fp hfp
  obtain ⟨p, hp, hfun⟩ := mapE_ok_mem h fp hfp
  cases hin : mapE (fillSample E) p.2 with
  | error e => rw [hin] at hfun; exact absurd hfun (by simp)
  | ok fs =>
    rw [hin] at hfun
    obtain rfl : (p.1, fs) = fp := by simpa using hfun
    exact ⟨p, hp, rfl, by simpa using hin⟩

lemma redistribute_pairs {sample : List Pair} {p : Pair}
    (h : p ∈ redistribute sample) :
    ∃ wp ∈ sample, wp.1 ≠ [] ∧ p.1 ∈ pySplitWs wp.1 ∧ p.2 = wp.2 := by
  simp only [redistribute, List.mem_flatten, List.mem_map] at h
  obtain ⟨l, ⟨wp, hwp, rfl⟩, hpl⟩ := h
  by_cases hne : wp.1 = []
  · rw [if_pos hne] at hpl; simp at hpl
  · rw [if_neg hne] at hpl
    obtain ⟨w, hw, rfl⟩ := List.mem_map.mp hpl
    exact ⟨wp, hwp, hne, hw, rfl⟩

lemma redistribute_good {sample : List Pair} {p : Pair}
    (h : p ∈ redistribute sample) : goodWord p.1 := by
  obtain ⟨wp, -, -, hw, -⟩ := redistribute_pairs h
  exact pySplitWs_good wp.1 p.1 hw

/-- Splitting the joined text of an assembled example recovers exactly the
sample's words, provided they are all good. -/
lemma assemble_split {L : LabelMap} {cat : PyStr} {sample : List Pair}
    (h : ∀ p ∈ sample, goodWord p.1) :
    pySplitWs ((assemble L cat sample).prompts) = sample.map (fun q => q.1) := by
  refine pySplitWs_joinSpace _ ?_
  intro w hw
  obtain ⟨q, hq, rfl⟩ := List.mem_map.mp hw
  exact h q hq

lemma zip_fst_snd {α β : Type} (l : List (α × β)) :
    (l.map (fun q => q.1)).zip (l.map (fun q => q.2)) = l := by
  induction l with
  | nil => rfl
  | cons x xs ih => simp [ih]

/-- Every example emitted by a successful run is the assembly of the
redistribution of one tuple of the Cartesian product of one filled template
of its intent. -/
lemma genrateDataset_provenance {E : Entities} {I : Intents} {L : LabelMap}
    {Q : Nat} {dup : Bool} {rr : Nat → Nat → Nat} {ds : List ExampleR}
    {dg : List (PyStr × Nat)}
    (h : genrateDataset E I L Q dup rr = Except.ok (ds, dg)) :
    ∀ ex ∈ ds, ∃ (p : PyStr × List PyStr) (t : PyStr) (slots : List (List Pair))
      (u : List Pair),
      p ∈ I ∧ t ∈ p.2 ∧ fillSample E t = Except.ok slots ∧ u ∈ pyProduct slots ∧
      ex = assemble L p.1 (redistribute u) := by
  unfold genrateDataset at h
  cases hsf : slotFilling E I with
  | error e => rw [hsf] at h; exact absurd h (by simp)
  | ok filled =>
    rw [hsf] at h
    intro ex hex
    obtain ⟨cat, pop, s, hmem, hs, rfl⟩ := generateDatasetAux_mem h ex hex
    obtain ⟨pp, hpp, rfl, rfl⟩ := distributedEntitiesLabel_mem hmem
    obtain ⟨c2, pop2⟩ := pp
    obtain ⟨fp, hfp, hc2, hpop2⟩ := permutationGeneration_mem hpp
    obtain ⟨u, hu, rfl⟩ := List.mem_map.mp hs
    subst hpop2
    simp only [List.mem_flatten, List.mem_map] at hu
    obtain ⟨l, ⟨slots, hslots, rfl⟩, hul⟩ := hu
    obtain ⟨p, hp, hfp1, hmap⟩ := slotFilling_mem hsf fp hfp
    obtain ⟨t, ht, hfill⟩ := mapE_ok_mem hmap slots hslots
    exact ⟨p, t, slots, u, hp, ht, hfill, hul, by rw [hc2, hfp1]⟩

/-- C2 (amended): in every emitted Example, the number of words of the
utterance text under whitespace tokenization (Python `str.split()`, which
yields zero words on the empty text) equals the length of `wordEntities`,
for all inputs and both sampling branches. -/
theorem emitted_word_label_alignment (E : Entities) (I : Intents) (L : LabelMap)
    (Q : Nat) (dup : Bool) (rr : Nat → Nat → Nat) (ds : List ExampleR)
    (dg : List (PyStr × Nat))
    (h : genrateDataset E I L Q dup rr = Except.ok (ds, dg)) :
    ∀ ex ∈ ds, (pySplitWs ex.prompts).length = ex.word_entities.length := by
  intro ex hex
  obtain ⟨p, t, slots, u, -, -, -, -, rfl⟩ := genrateDataset_provenance h ex hex
  have hgood : ∀ q ∈ redistribute u, goodWord q.1 := fun q hq => redistribute_good hq
  have hsplit := @assemble_split L p.1 (redistribute u) hgood
  calc (pySplitWs (assemble L p.1 (redistribute u)).prompts).length
      = ((redistribute u).map (fun q => q.1)).length := by rw [hsplit]
    _ = (redistribute u).length := by simp
    _ = ((redistribute u).map (fun q => q.2)).length := by simp
    _ = (assemble L p.1 (redistribute u)).word_entities.length := rfl

/-- C2 witness: the theorem applied to a one-intent, one-template run. -/
theorem emitted_word_label_alignment_witness :
    (pySplitWs (ExampleR.mk ("hi".toList) 0 [0]).prompts).length =
      (ExampleR.mk ("hi".toList) 0 [0]).word_entities.length :=
  emitted_word_label_alignment [] [(("greet".toList), [("hi".toList)])]
    [(0, ("greet".toList))] 1 true (fun _ _ => 0)
    [ExampleR.mk ("hi".toList) 0 [0]] [] rfl
    (ExampleR.mk ("hi".toList) 0 [0]) (List.mem_singleton.mpr rfl)

/-- C2 counterexample to the claim as literally stated: an intent file with a
blank line yields an empty template, whose single expanded utterance joins to
the empty text; splitting the empty text on single spaces yields one (empty)
word, while `wordEntities` is empty. -/
theorem single_space_split_alignment_cex :
    genrateDataset [] [(("greet".toList), [([] : PyStr)])] [(0, ("greet".toList))]
      1 true (fun _ _ => 0) = Except.ok ([ExampleR.mk [] 0 []], []) ∧
    (pySplitOn ' ' (ExampleR.mk [] 0 []).prompts).length ≠
      (ExampleR.mk [] 0 []).word_entities.length :=
  ⟨rfl, by decide⟩

/-- C1: the Permutation Expander yields, for a template with slots of sizes
`n_1 .. n_k`, exactly `n_1 * ... * n_k` expanded utterances, each with
exactly `k` pairs, the i-th chosen from the i-th slot; and
`_permutation_generation` concatenates exactly these per-template products
per category. -/
theorem permutation_expander_counts (slots : List (List Pair)) :
    (pyProduct slots).length = (slots.map List.length).prod ∧
    (∀ u ∈ pyProduct slots, u.length = slots.length ∧
      ∀ i (hu : i < u.length) (hi : i < slots.length),
        u.get ⟨i, hu⟩ ∈ slots.get ⟨i, hi⟩) ∧
    ∀ filled, permutationGeneration filled =
      filled.map (fun p => (p.1, (p.2.map pyProduct).flatten)) :=
  ⟨pyProduct_length slots, fun u hu => pyProduct_mem slots u hu, fun _ => rfl⟩

/-- C1 witness: a two-slot template of sizes 2 and 1; the tuple picking the
first value of each slot has one pair per slot. -/
theorem permutation_expander_counts_witness :
    ([(("a".toList), 1), (("c".toList), 0)] : List Pair).length =
      ([[(("a".toList), 1), (("b".toList), 1)], [(("c".toList), 0)]] :
        List (List Pair)).length :=
  ((permutation_expander_counts
      [[(("a".toList), 1), (("b".toList), 1)], [(("c".toList), 0)]]).2.1
    [(("a".toList), 1), (("c".toList), 0)] (by decide)).1

/-! ### Entity-id provenance -/

lemma dictGet_mem {α : Type} : ∀ {d : List (PyStr × α)} {k : PyStr} {v : α},
    dictGet d k = some v → (k, v) ∈ d := by
  intro d
  induction d with
  | nil => intro k v h; simp [dictGet] at h
  | cons p r ih =>
    intro k v h
    simp only [dictGet] at h
    by_cases hk : p.1 = k
    · rw [if_pos hk] at h
      obtain rfl : p.2 = v := by simpa using h
      exact List.mem_cons.mpr (Or.inl (by rw [← hk]))
    · rw [if_neg hk] at h
      exact List.mem_cons_of_mem _ (ih h)

lemma dictInsert_mem {α : Type} {d : List (PyStr × α)} {k : PyStr} {v : α}
    {g : PyStr × α} (h : g ∈ dictInsert d k v) : g ∈ d ∨ g = (k, v) := by
  unfold dictInsert at h
  by_cases hb : d.any (fun p => decide (p.1 = k)) = true
  · rw [if_pos hb] at h
    obtain ⟨p, hp, heq⟩ := List.mem_map.mp h
    by_cases hpk : p.1 = k
    · rw [if_pos hpk] at heq; exact Or.inr heq.symm
    · rw [if_neg hpk] at heq; exact Or.inl (heq ▸ hp)
  · rw [if_neg hb] at h
    rcases List.mem_append.mp h with h1 | h2
    · exact Or.inl h1
    · exact Or.inr (List.mem_singleton.mp h2)

/-- Every `(value, entityId)` pair produced by `_load_raw(assign_ids=True)`
carries an id of at least 1, since `start_id` begins at 1 and only grows. -/
lemma loadRawEntitiesAux_ids : ∀ (files : List (PyStr × List PyStr)) (sid : Nat)
    (data : Entities), 1 ≤ sid → (∀ g ∈ data, ∀ q ∈ g.2, 1 ≤ q.2) →
    ∀ g ∈ loadRawEntitiesAux files sid data, ∀ q ∈ g.2, 1 ≤ q.2 := by
  intro files
  induction files with
  | nil => intro sid data _ hd; simpa [loadRawEntitiesAux] using hd
  | cons f rest ih =>
    intro sid data hs hd
    obtain ⟨name, lines⟩ := f
    simp only [loadRawEntitiesAux]
    refine ih (sid + 1) _ (le_trans hs (Nat.le_succ _)) ?_
    intro g hg q hq
    rcases dictInsert_mem hg with h1 | rfl
    · exact hd g h1 q hq
    · obtain ⟨v, -, rfl⟩ := List.mem_map.mp hq
      exact hs

lemma loadRawEntities_ids (files : List (PyStr × List PyStr)) :
    ∀ g ∈ loadRawEntities files, ∀ q ∈ g.2, 1 ≤ q.2 :=
  loadRawEntitiesAux_ids files 1 [] (Nat.le_refl 1) (by simp)

lemma fillToken_ok_cases {E : Entities} {w : PyStr} {slot : List Pair}
    (h : fillToken E w = Except.ok slot) :
    (isPlaceholder w = true ∧ dictGet E (innerName w) = some slot) ∨
    (isPlaceholder w = false ∧ slot = [(w, 0)]) := by
  unfold fillToken at h
  by_cases hp : isPlaceholder w = true
  · rw [if_pos (by simpa using hp)] at h
    cases hdg : dictGet E (innerName w) with
    | none => rw [hdg] at h; exact absurd h (by simp)
    | some g =>
      rw [hdg] at h
      have hgs : g = slot := by simpa using h
      exact Or.inl ⟨hp, by rw [hgs]⟩
  · rw [if_neg (by simpa using hp)] at h
    exact Or.inr ⟨by simpa using hp, by simpa using h.symm⟩

/-- The word `w` occurs in some intent template as a literal
(non-placeholder) token. -/
def literalOriginated (I : Intents) (w : PyStr) : Prop :=
  ∃ p ∈ I, ∃ t ∈ p.2, w ∈ pySplitWs t ∧ isPlaceholder w = false

/-- The word `w` is a whitespace-split fragment of a value of some loaded
entity group, and `l` is that value's entityId. -/
def entityOriginated (E : Entities) (w : PyStr) (l : Nat) : Prop :=
  ∃ g ∈ E, ∃ q ∈ g.2, q.2 = l ∧ w ∈ pySplitWs q.1

/-- C3: with entities loaded by `_load_raw`, every word/label pair of every
emitted example either carries label 0 and is a literal token of some
template, or carries the entityId (at least 1) of the entity value it was
split from; label 0 never collides with an assigned entity id. -/
theorem zero_label_literal_only (files : List (PyStr × List PyStr)) (I : Intents)
    (L : LabelMap) (Q : Nat) (dup : Bool) (rr : Nat → Nat → Nat)
    (ds : List ExampleR) (dg : List (PyStr × Nat))
    (h : genrateDataset (loadRawEntities files) I L Q dup rr = Except.ok (ds, dg)) :
    ∀ ex ∈ ds, ∀ pr ∈ (pySplitWs ex.prompts).zip ex.word_entities,
      (pr.2 = 0 ∧ literalOriginated I pr.1) ∨
      (1 ≤ pr.2 ∧ entityOriginated (loadRawEntities files) pr.1 pr.2) := by
  intro ex hex pr hpr
  obtain ⟨p, t, slots, u, hp, ht, hfill, hu, rfl⟩ := genrateDataset_provenance h ex hex
  have hgood : ∀ q ∈ redistribute u, goodWord q.1 := fun q hq => redistribute_good hq
  have hsplit := @assemble_split L p.1 (redistribute u) hgood
  have hze : (assemble L p.1 (redistribute u)).word_entities =
      (redistribute u).map (fun q => q.2) := rfl
  rw [hsplit, hze, zip_fst_snd] at hpr
  obtain ⟨wp, hwp, -, hfrag, hlab⟩ := redistribute_pairs hpr
  obtain ⟨slot, hslot, hwslot⟩ := pyProduct_pair_mem slots u hu wp hwp
  obtain ⟨tok, htok, hft⟩ := mapE_ok_mem hfill slot hslot
  rcases fillToken_ok_cases hft with ⟨hpl, hdg'⟩ | ⟨hpl, rfl⟩
  · have hgmem := dictGet_mem hdg'
    have hid := loadRawEntities_ids files (innerName tok, slot) hgmem wp hwslot
    exact Or.inr ⟨hlab ▸ hid, (innerName tok, slot), hgmem, wp, hwslot, hlab.symm,
      hfrag⟩
  · obtain rfl : wp = (tok, 0) := List.mem_singleton.mp hwslot
    have hgt := pySplitWs_good t tok htok
    rw [pySplitWs_single tok hgt.1 hgt.2] at hfrag
    obtain rfl : pr.1 = tok := List.mem_singleton.mp hfrag
    exact Or.inl ⟨hlab, p, hp, t, ht, htok, hpl⟩

/-- C3 witness: a run with one entity group and the template
`play \x7bsong\x7d`; the pair `(play, 0)` of the emitted example satisfies
the dichotomy. -/
theorem zero_label_literal_only_witness :
    ((("play".toList, 0) : PyStr × Nat).2 = 0 ∧
      literalOriginated [(("greet".toList), [("play \x7bsong\x7d".toList)])]
        (("play".toList, 0) : PyStr × Nat).1) ∨
    (1 ≤ (("play".toList, 0) : PyStr × Nat).2 ∧
      entityOriginated (loadRawEntities [(("song".toList), [("yesterday".toList)])])
        (("play".toList, 0) : PyStr × Nat).1 (("play".toList, 0) : PyStr × Nat).2) :=
  zero_label_literal_only [(("song".toList), [("yesterday".toList)])]
    [(("greet".toList), [("play \x7bsong\x7d".toList)])]
    [(0, ("greet".toList))] 1 true (fun _ _ => 0)
    [ExampleR.mk ("play yesterday".toList) 0 [0, 1]] [] rfl
    (ExampleR.mk ("play yesterday".toList) 0 [0, 1]) (List.mem_singleton.mpr rfl)
    (("play".toList, 0)) (by decide)

/-! ### Sampler branches -/

/-- C4 counterexample to the claim as stated: an intent whose file holds no
usable template lines has an empty population; with duplicates allowed the
quota branch is taken, `random.choices` raises `IndexError`, and the run
aborts emitting no example at all instead of `samplesPerIntent` many. -/
theorem quota_branch_empty_population_cex :
    genrateDataset [] [(("greet".toList), ([] : List PyStr))] [(0, ("greet".toList))]
      1 true (fun _ _ => 0) = Except.error GenErr.indexError := rfl

/-- C4 (amended): on the quota branch, provided the available set is
nonempty (or the quota is zero), the sampler draws exactly `Q` utterances
with replacement from the available set and emits exactly `Q` examples for
that intent, with no diagnostic. -/
theorem quota_branch_emits_quota (L : LabelMap) (Q : Nat) (dup : Bool)
    (rr : Nat → Nat) (name : PyStr) (pop : List (List Pair))
    (hbranch : dup = true ∨ Q ≤ pop.length) (hpop : pop ≠ [] ∨ Q = 0) :
    ∃ chosen, pyChoices pop Q rr = Except.ok chosen ∧ chosen.length = Q ∧
      (∀ s ∈ chosen, s ∈ pop) ∧
      sampleCategory L Q dup rr name pop =
        Except.ok (chosen.map (assemble L name), []) ∧
      (chosen.map (assemble L name)).length = Q := by
  have hnb : ¬(dup = false ∧ pop.length < Q) := by
    rcases hbranch with h1 | h2
    · rintro ⟨hd, -⟩; rw [h1] at hd; exact Bool.noConfusion hd
    · rintro ⟨-, hlt⟩; exact absurd h2 (Nat.not_le_of_lt hlt)
  cases pop with
  | nil =>
    have hQ : Q = 0 := by
      rcases hpop with h1 | h2
      · exact absurd rfl h1
      · exact h2
    subst hQ
    refine ⟨[], rfl, rfl, by simp, ?_, rfl⟩
    unfold sampleCategory
    rw [if_neg hnb]
    rfl
  | cons x xs =>
    have hch : pyChoices (x :: xs) Q rr = Except.ok ((List.range Q).map (fun i =>
        (x :: xs).get ⟨rr i % (x :: xs).length, Nat.mod_lt _ (Nat.succ_pos xs.length)⟩)) :=
      rfl
    refine ⟨_, hch, by simp, pyChoices_mem hch, ?_, by simp⟩
    unfold sampleCategory
    rw [if_neg hnb, hch]

/-- C4 witness: quota 2 over a one-utterance population with duplicates
allowed draws and emits exactly 2 examples. -/
theorem quota_branch_emits_quota_witness :
    ∃ chosen, pyChoices [[(("hi".toList), 0)]] 2 (fun _ => 0) = Except.ok chosen ∧
      chosen.length = 2 ∧
      (∀ s ∈ chosen, s ∈ [[(("hi".toList), 0)]]) ∧
      sampleCategory [(0, ("greet".toList))] 2 true (fun _ => 0) ("greet".toList)
          [[(("hi".toList), 0)]] =
        Except.ok (chosen.map (assemble [(0, ("greet".toList))] ("greet".toList)), []) ∧
      (chosen.map (assemble [(0, ("greet".toList))] ("greet".toList))).length = 2 :=
  quota_branch_emits_quota [(0, ("greet".toList))] 2 true (fun _ => 0)
    ("greet".toList) [[(("hi".toList), 0)]] (Or.inl rfl) (Or.inl (by decide))

/-- C5: when duplicates are disallowed and strictly fewer utterances are
available than the quota, the sampler emits exactly the available
utterances, each exactly once (so never more examples than available), the
diagnostic names the intent and the available count, and generation
continues with the remaining intents. -/
theorem shortfall_branch_all_available (L : LabelMap) (Q : Nat)
    (rr : Nat → Nat → Nat) (idx : Nat) (name : PyStr) (pop : List (List Pair))
    (rest : List (PyStr × List (List Pair))) (ds : List ExampleR)
    (dg : List (PyStr × Nat)) (hlt : pop.length < Q) :
    sampleCategory L Q false (rr idx) name pop =
      Except.ok (pop.map (assemble L name), [(name, pop.length)]) ∧
    (pop.map (assemble L name)).length = pop.length ∧
    (generateDatasetAux L Q false rr (idx + 1) rest = Except.ok (ds, dg) →
      generateDatasetAux L Q false rr idx ((name, pop) :: rest) =
        Except.ok (pop.map (assemble L name) ++ ds, (name, pop.length) :: dg)) := by
  have hsc : sampleCategory L Q false (rr idx) name pop =
      Except.ok (pop.map (assemble L name), [(name, pop.length)]) := by
    unfold sampleCategory
    rw [if_pos ⟨rfl, hlt⟩]
  refine ⟨hsc, by simp, ?_⟩
  intro hrec
  simp only [generateDatasetAux, hsc, hrec]
  rfl

/-- C5 witness: quota 5 without duplicates over a 2-utterance population
emits both utterances and the shortfall diagnostic. -/
theorem shortfall_branch_all_available_witness :
    sampleCategory [(0, ("greet".toList))] 5 false ((fun _ _ => 0) 0) ("greet".toList)
        [[(("hello".toList), 0)], [(("hi".toList), 0)]] =
      Except.ok
        ([[(("hello".toList), 0)], [(("hi".toList), 0)]].map
          (assemble [(0, ("greet".toList))] ("greet".toList)),
         [(("greet".toList), 2)]) ∧
    ([[(("hello".toList), 0)], [(("hi".toList), 0)]].map
      (assemble [(0, ("greet".toList))] ("greet".toList))).length = 2 ∧
    (generateDatasetAux [(0, ("greet".toList))] 5 false (fun _ _ => 0) 1 [] =
        Except.ok ([], []) →
      generateDatasetAux [(0, ("greet".toList))] 5 false (fun _ _ => 0) 0
          [(("greet".toList), [[(("hello".toList), 0)], [(("hi".toList), 0)]])] =
        Except.ok
          ([[(("hello".toList), 0)], [(("hi".toList), 0)]].map
            (assemble [(0, ("greet".toList))] ("greet".toList)) ++ [],
           [(("greet".toList), 2)])) :=
  shortfall_branch_all_available [(0, ("greet".toList))] 5 (fun _ _ => 0) 0
    ("greet".toList) [[(("hello".toList), 0)], [(("hi".toList), 0)]] [] [] []
    (by decide)

/-! ### Unknown entity reference -/

/-- The run outcome is a `KeyError`-class failure. -/
def isKeyError {α : Type} : Except GenErr α → Prop
  | Except.error (GenErr.keyError _) => True
  | _ => False

lemma slotFilling_error_keyError {E : Entities} {I : Intents} {e : GenErr}
    (h : slotFilling E I = Except.error e) : ∃ n, e = GenErr.keyError n := by
  obtain ⟨p, -, hgp⟩ := mapE_error_mem h
  cases hin : mapE (fillSample E) p.2 with
  | ok fs => rw [hin] at hgp; exact absurd hgp (by simp)
  | error e' =>
    rw [hin] at hgp
    obtain rfl : e' = e := by simpa using hgp
    obtain ⟨t, -, hft⟩ := mapE_error_mem hin
    obtain ⟨w, -, hftok⟩ := mapE_error_mem hft
    unfold fillToken at hftok
    by_cases hpl : isPlaceholder w = true
    · rw [if_pos (by simpa using hpl)] at hftok
      cases hdg : dictGet E (innerName w) with
      | some g => rw [hdg] at hftok; exact absurd hftok (by simp)
      | none =>
        rw [hdg] at hftok
        exact ⟨innerName w, by simpa using hftok.symm⟩
    · rw [if_neg (by simpa using hpl)] at hftok
      exact absurd hftok (by simp)

/-- C6: a template placeholder naming an absent entity group makes the whole
generation run abort with the `KeyError`-class lookup failure — the result
is an error, so no example is produced for any intent, not just the
offending one. -/
theorem unknown_entity_aborts (E : Entities) (I : Intents) (L : LabelMap)
    (Q : Nat) (dup : Bool) (rr : Nat → Nat → Nat)
    (h : ∃ p ∈ I, ∃ t ∈ p.2, ∃ w ∈ pySplitWs t,
      isPlaceholder w = true ∧ dictGet E (innerName w) = none) :
    isKeyError (genrateDataset E I L Q dup rr) := by
  obtain ⟨p, hp, t, ht, w, hw, hpl, hnone⟩ := h
  have hft : fillToken E w = Except.error (GenErr.keyError (innerName w)) := by
    unfold fillToken
    rw [if_pos (by simpa using hpl), hnone]
  have hfs : fillSample E t = Except.error (GenErr.keyError (innerName w)) ∨
      ∃ e1, fillSample E t = Except.error e1 := by
    obtain ⟨e1, he1⟩ := mapE_error_of_mem hw hft
    exact Or.inr ⟨e1, he1⟩
  obtain ⟨e1, he1⟩ : ∃ e1, fillSample E t = Except.error e1 := by
    rcases hfs with h1 | h2
    · exact ⟨_, h1⟩
    · exact h2
  obtain ⟨e2, he2⟩ := mapE_error_of_mem ht he1
  have hgp : (match mapE (fillSample E) p.2 with
      | Except.error e => Except.error e
      | Except.ok fs => Except.ok (p.1, fs)) =
      (Except.error e2 : Except GenErr (PyStr × List (List (List Pair)))) := by
    rw [he2]
  obtain ⟨e3, he3⟩ :=
    @mapE_error_of_mem (PyStr × List PyStr) (PyStr × List (List (List Pair)))
      (fun p => match mapE (fillSample E) p.2 with
        | Except.error e => Except.error e
        | Except.ok fs => Except.ok (p.1, fs)) I p e2 hp hgp
  have hsf : slotFilling E I = Except.error e3 := he3
  obtain ⟨n, rfl⟩ := slotFilling_error_keyError hsf
  unfold genrateDataset
  rw [hsf]
  trivial

/-- C6 witness: a template referencing the absent group `song` aborts the
run with a `KeyError`. -/
theorem unknown_entity_aborts_witness :
    isKeyError (genrateDataset [] [(("greet".toList), [("\x7bsong\x7d".toList)])]
      [(0, ("greet".toList))] 1 true (fun _ _ => 0)) :=
  unknown_entity_aborts [] [(("greet".toList), [("\x7bsong\x7d".toList)])]
    [(0, ("greet".toList))] 1 true (fun _ _ => 0)
    ⟨(("greet".toList), [("\x7bsong\x7d".toList)]), by simp,
      ("\x7bsong\x7d".toList), by simp, ("\x7bsong\x7d".toList), by decide,
      by decide, by decide⟩

/-! ### Empty templates -/

/-- C7 counterexample to the claim as stated: a blank intent line is an
empty template (zero tokens); its category's expansion list holds one
utterance (the empty one), not zero, because the nullary `itertools.product`
yields a single empty tuple. -/
theorem empty_template_zero_cex :
    pySplitWs ([] : PyStr) = [] ∧
    fillSample ([] : Entities) ([] : PyStr) = Except.ok [] ∧
    permutationGeneration [(("greet".toList), [([] : List (List Pair))])] =
      [(("greet".toList), [([] : List Pair)])] ∧
    ([([] : List Pair)] : List (List Pair)).length ≠ 0 :=
  ⟨rfl, rfl, rfl, by decide⟩

/-- C7 (amended): an empty template (zero tokens after whitespace
tokenization) fills to the empty slot list and contributes exactly one
ExpandedUtterance, namely the empty one, to its category's expansion. -/
theorem empty_template_one_utterance (E : Entities) (t : PyStr)
    (h : pySplitWs t = []) :
    fillSample E t = Except.ok [] ∧
    pyProduct ([] : List (List Pair)) = [([] : List Pair)] ∧
    ∀ (cat : PyStr) (templates : List (List (List Pair))),
      permutationGeneration [(cat, templates ++ [[]])] =
        [(cat, (templates.map pyProduct).flatten ++ [([] : List Pair)])] := by
  refine ⟨?_, rfl, ?_⟩
  · unfold fillSample
    rw [h]
    rfl
  · intro cat templates
    simp [permutationGeneration, pyProduct]

/-- C7 witness: the theorem applied to the literally empty template. -/
theorem empty_template_one_utterance_witness :
    fillSample ([] : Entities) ([] : PyStr) = Except.ok [] ∧
    pyProduct ([] : List (List Pair)) = [([] : List Pair)] :=
  ⟨(empty_template_one_utterance [] [] rfl).1,
    (empty_template_one_utterance [] [] rfl).2.1⟩

/-! ### Reproducibility of sampling -/

/-- C8 counterexample to the claim as stated: the listed inputs (entities,
intents, quota, duplicates flag) are fixed, yet two runs differing only in
the pseudo-random draw sequence emit different example sets for the same
category, so the inputs alone do not make the sampled set reproducible. -/
theorem sampling_not_input_determined_cex :
    genrateDataset
        [(("song".toList), [(("yesterday".toList), 1), (("let it be".toList), 1)])]
        [(("greet".toList), [("\x7bsong\x7d".toList)])] [(0, ("greet".toList))]
        1 true (fun _ _ => 0) =
      Except.ok ([ExampleR.mk ("yesterday".toList) 0 [1]], []) ∧
    genrateDataset
        [(("song".toList), [(("yesterday".toList), 1), (("let it be".toList), 1)])]
        [(("greet".toList), [("\x7bsong\x7d".toList)])] [(0, ("greet".toList))]
        1 true (fun _ _ => 1) =
      Except.ok ([ExampleR.mk ("let it be".toList) 0 [1, 1, 1]], []) ∧
    ExampleR.mk ("yesterday".toList) 0 [1] ≠
      ExampleR.mk ("let it be".toList) 0 [1, 1, 1] :=
  ⟨rfl, rfl, by decide⟩

/-- C8 (amended): generation is a pure function of the inputs together with
the pseudo-random draw stream: fixing the stream as well, two runs agree
example for example. -/
theorem generation_deterministic_given_draws (E : Entities) (I : Intents)
    (L : LabelMap) (Q : Nat) (dup : Bool) (r1 r2 : Nat → Nat → Nat)
    (h : ∀ i j, r1 i j = r2 i j) :
    genrateDataset E I L Q dup r1 = genrateDataset E I L Q dup r2 := by
  have hr : r1 = r2 := funext (fun i => funext (fun j => h i j))
  rw [hr]

/-- C8 witness: two extensionally equal draw streams give equal runs. -/
theorem generation_deterministic_given_draws_witness :
    genrateDataset [] [(("greet".toList), [("hi".toList)])] [(0, ("greet".toList))]
        1 true (fun _ _ => 0) =
      genrateDataset [] [(("greet".toList), [("hi".toList)])] [(0, ("greet".toList))]
        1 true (fun _ _ => 0 + 0) :=
  generation_deterministic_given_draws [] [(("greet".toList), [("hi".toList)])]
    [(0, ("greet".toList))] 1 true (fun _ _ => 0) (fun _ _ => 0 + 0)
    (fun _ _ => rfl)

/-! ### Missing dataset directory -/

/-- C9: when the configured dataset root does not exist, `load` surfaces the
diagnostic and leaves every collection empty, the subsequent generation run
emits no example, and `save` — whose writes all open files inside the
missing directory — produces neither a dataset file nor label-map files. -/
theorem missing_directory_no_output (ef itf : List (PyStr × List PyStr))
    (Q : Nat) (dup : Bool) (rr : Nat → Nat → Nat) :
    load false ef itf =
      LoadState.mk [] [] [] [] [("Dataset directory does not exist".toList)] ∧
    genrateDataset (load false ef itf).entities (load false ef itf).intents
      (load false ef itf).intents_label Q dup rr = Except.ok ([], []) ∧
    save false (load false ef itf).intents_label (load false ef itf).entities_label
      [] = none :=
  ⟨rfl, rfl, rfl⟩

/-! ### Entity LabelMap keys versus per-group entity ids -/

/-- Restructured form of the `_load_raw(assign_ids=True)` loop for
reasoning: when no file stem repeats, every iteration appends a fresh group,
so the result lists one group per file with ids counting up from `sid`. -/
def loadGroups : List (PyStr × List PyStr) → Nat → Entities
  | [], _ => []
  | (name, lines) :: rest, sid =>
    (name, (processedLines lines).map (fun v => (v, sid))) :: loadGroups rest (sid + 1)

lemma dictInsert_fresh {α : Type} (d : List (PyStr × α)) (k : PyStr) (v : α)
    (h : ∀ g ∈ d, g.1 ≠ k) : dictInsert d k v = d ++ [(k, v)] := by
  unfold dictInsert
  rw [if_neg]
  simp only [List.any_eq_true, decide_eq_true_eq, not_exists]
  intro p
  rintro ⟨hp, hpk⟩
  exact h p hp hpk

lemma loadRawEntitiesAux_fresh :
    ∀ (files : List (PyStr × List PyStr)) (sid : Nat) (data : Entities),
    (files.map (fun f => f.1)).Nodup →
    (∀ f ∈ files, ∀ g ∈ data, g.1 ≠ f.1) →
    loadRawEntitiesAux files sid data = data ++ loadGroups files sid := by
  intro files
  induction files with
  | nil => intro sid data _ _; simp [loadRawEntitiesAux, loadGroups]
  | cons f rest ih =>
    intro sid data hnd hfresh
    obtain ⟨name, lines⟩ := f
    have hnd' : (rest.map (fun f => f.1)).Nodup := (List.nodup_cons.mp hnd).2
    have hhead : (name : PyStr) ∉ rest.map (fun f => f.1) := (List.nodup_cons.mp hnd).1
    have hins : dictInsert data name
        ((processedLines lines).map (fun v => (v, sid))) =
        data ++ [(name, (processedLines lines).map (fun v => (v, sid)))] :=
      dictInsert_fresh _ _ _ (fun g hg => hfresh (name, lines) (by simp) g hg)
    have hfresh' : ∀ f ∈ rest,
        ∀ g ∈ data ++ [(name, (processedLines lines).map (fun v => (v, sid)))],
        g.1 ≠ f.1 := by
      intro f hf g hg
      rcases List.mem_append.mp hg with h1 | h2
      · exact hfresh f (List.mem_cons_of_mem _ hf) g h1
      · obtain rfl := List.mem_singleton.mp h2
        intro hcon
        have hnf : name = f.1 := hcon
        rw [hnf] at hhead
        exact hhead (List.mem_map_of_mem (fun f => f.1) hf)
    show loadRawEntitiesAux rest (sid + 1)
        (dictInsert data name ((processedLines lines).map (fun v => (v, sid)))) =
      data ++ loadGroups ((name, lines) :: rest) sid
    rw [hins, ih (sid + 1) _ hnd' hfresh']
    simp [loadGroups]

lemma loadRawEntities_groups (files : List (PyStr × List PyStr))
    (hnd : (files.map (fun f => f.1)).Nodup) :
    loadRawEntities files = loadGroups files 1 := by
  unfold loadRawEntities
  rw [loadRawEntitiesAux_fresh files 1 [] hnd (by simp)]
  simp

lemma loadGroups_get? : ∀ (files : List (PyStr × List PyStr)) (sid i : Nat),
    (loadGroups files sid).get? i =
      (files.get? i).map (fun f =>
        (f.1, (processedLines f.2).map (fun v => (v, sid + i)))) := by
  intro files
  induction files with
  | nil => intro sid i; simp [loadGroups]
  | cons f rest ih =>
    intro sid i
    obtain ⟨name, lines⟩ := f
    cases i with
    | zero => simp [loadGroups]
    | succ j =>
      have := ih (sid + 1) j
      simp only [loadGroups, List.get?_cons_succ, this, Nat.add_assoc]
      rw [Nat.add_comm 1 j]

lemma generateMapping_get? {α : Type} : ∀ (d : List (PyStr × α)) (c i : Nat),
    (generateMapping d c).get? i = (d.get? i).map (fun p => (c + i, p.1)) := by
  intro d
  induction d with
  | nil => intro c i; simp [generateMapping]
  | cons p rest ih =>
    intro c i
    cases i with
    | zero => simp [generateMapping]
    | succ j =>
      have := ih (c + 1) j
      simp only [generateMapping, List.get?_cons_succ, this, Nat.add_assoc]
      rw [Nat.add_comm 1 j]

/-- C10: with pairwise distinct file stems (the data model's unique group
names), the group at position `i` of the loaded entity collection appears in
the entity LabelMap under the key `1 + i`, and every `(value, entityId)`
pair of that group carries entityId `1 + i`: the LabelMap key and the
per-group id assigned during loading coincide for every group. -/
theorem entity_map_key_matches_entity_id (files : List (PyStr × List PyStr))
    (hnd : (files.map (fun f => f.1)).Nodup) (i : Nat) (gname : PyStr)
    (gvals : List Pair)
    (hG : (loadRawEntities files).get? i = some (gname, gvals)) :
    (generateMapping (loadRawEntities files) 1).get? i = some (1 + i, gname) ∧
    ∀ q ∈ gvals, q.2 = 1 + i := by
  constructor
  · rw [generateMapping_get?, hG]
    rfl
  · rw [loadRawEntities_groups files hnd, loadGroups_get?] at hG
    cases hf : files.get? i with
    | none => rw [hf] at hG; exact absurd hG (by simp)
    | some f =>
      rw [hf] at hG
      have hvals : (processedLines f.2).map (fun v => (v, 1 + i)) = gvals := by
        have := Option.some.inj hG
        exact congrArg Prod.snd this
      intro q hq
      rw [← hvals] at hq
      obtain ⟨v, -, rfl⟩ := List.mem_map.mp hq
      rfl

/-- C10 witness: two entity files; the second group sits at position 1, its
LabelMap key and all of its entity ids are 2. -/
theorem entity_map_key_matches_entity_id_witness :
    (generateMapping (loadRawEntities
        [(("song".toList), [("yesterday".toList)]),
         (("city".toList), [("london".toList), ("paris".toList)])]) 1).get? 1 =
      some (1 + 1, ("city".toList)) ∧
    ∀ q ∈ [(("london".toList), 2), (("paris".toList), 2)], (q : Pair).2 = 1 + 1 :=
  entity_map_key_matches_entity_id
    [(("song".toList), [("yesterday".toList)]),
     (("city".toList), [("london".toList), ("paris".toList)])]
    (by decide) 1 ("city".toList) [(("london".toList), 2), (("paris".toList), 2)]
    (by decide)
